import Mathlib

/-
Verification of the asynchronous emotion-analysis pipeline of the
emotion-sns-demo repository (file `emotion_sns_demo.py`).

The embedding works at one-second time granularity: timestamps are natural
numbers counting seconds.  Python's `(now - t).seconds` on a non-negative
`timedelta` discards whole days, i.e. it equals `(now - t) % 86400`; this is
modelled exactly.  Emotion score values are modelled as rationals (`ℚ`); every
score constant appearing in the source (5.0, 6.0, 7.0, 3.0, 0) is exact in ℚ.
The external AI service and `json.loads` are external collaborators: their
behaviour on a given call is an oracle argument (`ServiceBehavior`, a
`jsonLoads` function), with an exception modelled as the error case.
-/

namespace EmotionSNS

/-- Python `(now - t).seconds` for `t ≤ now` at whole-second granularity:
the whole-day part of the difference is discarded. -/
def tdSeconds (now t : Nat) : Nat := (now - t) % 86400

/-- Embedding of `RateLimiter.can_request` (emotion_sns_demo.py lines 157-167):
drop recorded timestamps whose age-in-seconds (day part discarded) reaches
`w`, then admit (append `now`, return `true`) when fewer than `m` remain,
else reject.  Returns `(admitted, new requests list)`.  Parameters `m`, `w`
model `max_requests` and `time_window`; the global instance uses 15 and 60. -/
def can_request (m w : Nat) (reqs : List Nat) (now : Nat) : Bool × List Nat :=
  let kept := reqs.filter fun t => decide (tdSeconds now t < w)
  if kept.length < m then (true, kept ++ [now]) else (false, kept)

/-- Embedding of `RateLimiter.wait_time` (lines 169-174): 0 on an empty list,
otherwise `max(0, w - (now - oldest).seconds)`; `Nat` subtraction realises the
`max 0`.  The oldest timestamp is `min(self.requests)`, a left fold of `min`. -/
def wait_time (w : Nat) (reqs : List Nat) (now : Nat) : Nat :=
  match reqs with
  | [] => 0
  | t :: ts => w - tdSeconds now (ts.foldl Nat.min t)

/-- Run a sequence of `can_request` calls at the given times against limiter
state `reqs`; returns (list of admitted call times, final state). -/
def runRL (m w : Nat) (reqs : List Nat) : List Nat → List Nat × List Nat
  | [] => ([], reqs)
  | t :: ts =>
    let r := can_request m w reqs t
    let rest := runRL m w r.2 ts
    (if r.1 then t :: rest.1 else rest.1, rest.2)

/-- The admitted call times of a run form a sublist of the call times. -/
lemma runRL_fst_sublist (m w : Nat) :
    ∀ (times reqs : List Nat), List.Sublist (runRL m w reqs times).1 times := by
  intro times
  induction times with
  | nil => intro reqs; simp [runRL]
  | cons t ts ih =>
    intro reqs
    simp only [runRL]
    by_cases h : (can_request m w reqs t).1 = true
    · simp only [h, if_true]
      exact (ih _).cons₂ t
    · simp only [Bool.not_eq_true] at h
      simp only [h, Bool.false_eq_true, if_false]
      exact (ih _).cons t

/-- Running on an appended list of call times runs the pieces in sequence. -/
lemma runRL_append (m w : Nat) :
    ∀ (l₁ l₂ reqs : List Nat),
      runRL m w reqs (l₁ ++ l₂) =
        ((runRL m w reqs l₁).1 ++ (runRL m w (runRL m w reqs l₁).2 l₂).1,
         (runRL m w (runRL m w reqs l₁).2 l₂).2) := by
  intro l₁
  induction l₁ with
  | nil => intro l₂ reqs; simp [runRL]
  | cons t ts ih =>
    intro l₂ reqs
    simp only [List.cons_append, runRL]
    by_cases h : (can_request m w reqs t).1 = true <;> simp [h, ih]

open List

/-- Any admission recorded within the last `w` seconds survives the pruning
filter of a later `can_request` call: the filter keeps every `a` whose real
age stays below `w`, because `tdSeconds t a ≤ t - a`. -/
lemma subperm_filter_of_le (w t T : Nat) (hT : t ≤ T) (adms reqs : List Nat)
    (h : (adms.filter fun a => decide (T - a < w)) <+~ reqs) :
    (adms.filter fun a => decide (T - a < w)) <+~
      reqs.filter fun x => decide (tdSeconds t x < w) := by
  have hall : ∀ a ∈ adms.filter fun a => decide (T - a < w),
      (fun x => decide (tdSeconds t x < w)) a = true := by
    intro a ha
    have hmem := List.mem_filter.mp ha
    have hTa : T - a < w := of_decide_eq_true hmem.2
    have h1 : tdSeconds t a ≤ t - a := Nat.mod_le _ _
    have h2 : t - a ≤ T - a := Nat.sub_le_sub_right hT a
    exact decide_eq_true (lt_of_le_of_lt (le_trans h1 h2) hTa)
  calc (adms.filter fun a => decide (T - a < w))
      = (adms.filter fun a => decide (T - a < w)).filter
          (fun x => decide (tdSeconds t x < w)) := (List.filter_eq_self.mpr hall).symm
    _ <+~ reqs.filter fun x => decide (tdSeconds t x < w) :=
        h.filter (fun x => decide (tdSeconds t x < w))

set_option maxRecDepth 4000 in
/-- Main invariant of a run of `can_request` calls at nondecreasing times.
`adms` is the multiset of earlier admissions, `t₀` a lower bound on the
remaining call times; the recorded list always contains (as a sub-multiset)
every earlier admission still inside the trailing window, and never exceeds
`m` entries. -/
lemma runRL_invariant (m w : Nat) :
    ∀ (times : List Nat) (t₀ : Nat) (reqs adms : List Nat),
      (t₀ :: times).Sorted (· ≤ ·) →
      (∀ T, t₀ ≤ T → (adms.filter fun a => decide (T - a < w)) <+~ reqs) →
      reqs.length ≤ m →
      (∀ T, t₀ ≤ T → (∀ t ∈ times, t ≤ T) →
        ((adms ++ (runRL m w reqs times).1).filter fun a => decide (T - a < w)) <+~
          (runRL m w reqs times).2)
      ∧ (runRL m w reqs times).2.length ≤ m := by
  intro times
  induction times with
  | nil =>
    intro t₀ reqs adms _ hinv hlen
    refine ⟨fun T hT _ => ?_, hlen⟩
    simpa [runRL] using hinv T hT
  | cons t ts ih =>
    intro t₀ reqs adms hsort hinv hlen
    have ht₀t : t₀ ≤ t := List.rel_of_sorted_cons hsort t (List.mem_cons_self t ts)
    have hsort' : (t :: ts).Sorted (· ≤ ·) := hsort.of_cons
    by_cases hadm : (reqs.filter fun x => decide (tdSeconds t x < w)).length < m
    · -- the call at time `t` is admitted
      have hstep : runRL m w reqs (t :: ts) =
          (t :: (runRL m w ((reqs.filter fun x => decide (tdSeconds t x < w)) ++ [t]) ts).1,
           (runRL m w ((reqs.filter fun x => decide (tdSeconds t x < w)) ++ [t]) ts).2) := by
        simp only [runRL, can_request]
        simp only [hadm, if_true]
      set kept := reqs.filter fun x => decide (tdSeconds t x < w) with hkept
      have hF : ∀ T, t ≤ T → (adms.filter fun a => decide (T - a < w)) <+~ kept := by
        intro T hT
        exact subperm_filter_of_le w t T hT adms reqs (hinv T (le_trans ht₀t hT))
      have hinv' : ∀ T, t ≤ T →
          ((adms ++ [t]).filter fun a => decide (T - a < w)) <+~ kept ++ [t] := by
        intro T hT
        rw [List.filter_append]
        by_cases hfresh : T - t < w
        · have : [t].filter (fun a => decide (T - a < w)) = [t] := by simp [hfresh]
          rw [this]
          exact (List.subperm_append_right [t]).mpr (hF T hT)
        · have : [t].filter (fun a => decide (T - a < w)) = [] := by simp [hfresh]
          rw [this, List.append_nil]
          exact (hF T hT).trans (List.sublist_append_left kept [t]).subperm
      have hlen' : (kept ++ [t]).length ≤ m := by
        simp only [List.length_append, List.length_singleton]
        omega
      obtain ⟨IH1, IH2⟩ := ih t (kept ++ [t]) (adms ++ [t]) hsort' hinv' hlen'
      rw [hstep]
      refine ⟨fun T hT hall => ?_, IH2⟩
      have hTt : t ≤ T := hall t (List.mem_cons_self t ts)
      have hrw : adms ++ t :: (runRL m w (kept ++ [t]) ts).1 =
          (adms ++ [t]) ++ (runRL m w (kept ++ [t]) ts).1 := by
        simp
      rw [hrw]
      exact IH1 T hTt (fun x hx => hall x (List.mem_cons_of_mem t hx))
    · -- the call at time `t` is rejected
      have hstep : runRL m w reqs (t :: ts) =
          ((runRL m w (reqs.filter fun x => decide (tdSeconds t x < w)) ts).1,
           (runRL m w (reqs.filter fun x => decide (tdSeconds t x < w)) ts).2) := by
        simp only [runRL, can_request]
        simp only [if_neg hadm]
        simp
      set kept := reqs.filter fun x => decide (tdSeconds t x < w) with hkept
      have hF : ∀ T, t ≤ T → (adms.filter fun a => decide (T - a < w)) <+~ kept := by
        intro T hT
        exact subperm_filter_of_le w t T hT adms reqs (hinv T (le_trans ht₀t hT))
      have hlen' : kept.length ≤ m := le_trans (List.length_filter_le _ reqs) hlen
      obtain ⟨IH1, IH2⟩ := ih t kept adms hsort' hF hlen'
      rw [hstep]
      refine ⟨fun T hT hall => ?_, IH2⟩
      have hTt : t ≤ T := hall t (List.mem_cons_self t ts)
      exact IH1 T hTt (fun x hx => hall x (List.mem_cons_of_mem t hx))

/-- In a sorted list, everything left after dropping the prefix of elements
`≤ T` is strictly greater than `T`. -/
lemma sorted_dropWhile_gt (T : Nat) :
    ∀ (l : List Nat), l.Sorted (· ≤ ·) →
      ∀ x ∈ l.dropWhile (fun a => decide (a ≤ T)), T < x := by
  intro l
  induction l with
  | nil => intro _ x hx; simp [List.dropWhile] at hx
  | cons a l ih =>
    intro hsort x hx
    by_cases ha : a ≤ T
    · rw [List.dropWhile_cons_of_pos (by simpa using ha)] at hx
      exact ih hsort.of_cons x hx
    · rw [List.dropWhile_cons_of_neg (by simpa using ha)] at hx
      rcases List.mem_cons.mp hx with rfl | hx'
      · omega
      · have := List.rel_of_sorted_cons hsort x hx'
        omega

/-- Sliding-window safety of the rate limiter: starting from an empty state,
for any nondecreasing sequence of call times, at most `m` calls are admitted
whose times fall in any trailing window `(T - w, T]`. -/
lemma runRL_window_bound (m w : Nat) (times : List Nat)
    (hsort : times.Sorted (· ≤ ·)) (T : Nat) :
    ((runRL m w [] times).1.filter fun a => decide (a ≤ T ∧ T - a < w)).length ≤ m := by
  set l₁ := times.takeWhile (fun a => decide (a ≤ T)) with hl₁
  set l₂ := times.dropWhile (fun a => decide (a ≤ T)) with hl₂
  have hsplit : l₁ ++ l₂ = times := List.takeWhile_append_dropWhile _ _
  have hsort₁ : l₁.Sorted (· ≤ ·) := hsort.sublist (List.takeWhile_sublist _)
  have hrun := runRL_append m w l₁ l₂ []
  rw [hsplit] at hrun
  set A₁ := (runRL m w [] l₁).1 with hA₁
  set A₂ := (runRL m w (runRL m w [] l₁).2 l₂).1 with hA₂
  have hA : (runRL m w [] times).1 = A₁ ++ A₂ := by rw [hrun]
  -- late admissions lie outside the window
  have hA₂nil : A₂.filter (fun a => decide (a ≤ T ∧ T - a < w)) = [] := by
    refine List.filter_eq_nil_iff.mpr ?_
    intro a ha
    have hmem : a ∈ l₂ := (runRL_fst_sublist m w l₂ _).mem ha
    have : T < a := sorted_dropWhile_gt T times hsort a hmem
    simp only [decide_eq_true_eq]
    omega
  -- early admissions are bounded through the invariant
  have hbound : (A₁.filter fun a => decide (T - a < w)).length ≤ m := by
    have hsort₀ : ((0 : Nat) :: l₁).Sorted (· ≤ ·) :=
      List.sorted_cons.mpr ⟨fun b _ => Nat.zero_le b, hsort₁⟩
    have hinv : ∀ T', (0 : Nat) ≤ T' →
        (([] : List Nat).filter fun a => decide (T' - a < w)) <+~ ([] : List Nat) := by
      intro T' _; simp
    obtain ⟨H1, H2⟩ := runRL_invariant m w l₁ 0 [] [] hsort₀ hinv (Nat.le_refl 0 |>.trans (Nat.zero_le m))
    have hallT : ∀ t ∈ l₁, t ≤ T := by
      intro t ht
      simpa using List.mem_takeWhile_imp ht
    have := (H1 T (Nat.zero_le T) hallT).length_le
    simpa using le_trans this H2
  have hcong : A₁.filter (fun a => decide (a ≤ T ∧ T - a < w)) =
      A₁.filter (fun a => decide (T - a < w)) := by
    refine List.filter_congr ?_
    intro a ha
    have hmem : a ∈ l₁ := (runRL_fst_sublist m w l₁ _).mem ha
    have haT : a ≤ T := by simpa using List.mem_takeWhile_imp hmem
    simp [haT]
  rw [hA, List.filter_append, hA₂nil, List.append_nil, hcong]
  exact hbound

/-- The left fold of `Nat.min` (Python `min(list)`) yields an element of the
list. -/
lemma foldl_min_mem : ∀ (ts : List Nat) (t : Nat), ts.foldl Nat.min t ∈ t :: ts := by
  intro ts
  induction ts with
  | nil => intro t; simp
  | cons a ts ih =>
    intro t
    have h := ih (Nat.min t a)
    simp only [List.foldl_cons]
    rcases List.mem_cons.mp h with h1 | h1
    · by_cases hta : t ≤ a
      · rw [h1]; simp [Nat.min_def, hta]
      · rw [h1]; simp [Nat.min_def, hta]
    · exact List.mem_cons_of_mem _ (List.mem_cons_of_mem _ h1)

/-- The left fold of `Nat.min` is a lower bound of the list (with its seed). -/
lemma foldl_min_le : ∀ (ts : List Nat) (t : Nat), ∀ x ∈ t :: ts, ts.foldl Nat.min t ≤ x := by
  intro ts
  induction ts with
  | nil => intro t x hx; simp at hx; simp [hx]
  | cons a ts ih =>
    intro t x hx
    have hmin : (a :: ts).foldl Nat.min t = ts.foldl Nat.min (Nat.min t a) := by
      simp [List.foldl_cons]
    rw [hmin]
    have hle := ih (Nat.min t a)
    rcases List.mem_cons.mp hx with rfl | hx'
    · exact le_trans (hle _ (List.mem_cons_self _ _)) (Nat.min_le_left _ a)
    · rcases List.mem_cons.mp hx' with rfl | hx''
      · exact le_trans (hle _ (List.mem_cons_self _ _)) (Nat.min_le_right t _)
      · exact hle x (List.mem_cons_of_mem _ hx'')

/-! ## The Emotion Scorer (`analyze_emotion_with_ai`, lines 179-242)

The external AI call and `json.loads` are collaborators outside the
repository; each analysis attempt takes their behaviour as an oracle:
`ServiceBehavior` is what `client.models.generate_content` does (raise, or
return a response text), and `jsonLoads` is what `json.loads` does on the
extracted substring (raise with some message, or produce a JSON object —
an association list of string keys to numeric values). -/

/-- Behaviour of the external service call on one analysis attempt. -/
inductive ServiceBehavior where
  | raises (err : String)
  | returns (text : String)
deriving DecidableEq, Repr

/-- The character U+007B (opening curly bracket). -/
def openBrace : Char := Char.ofNat 123

/-- The character U+007D (closing curly bracket). -/
def closeBrace : Char := Char.ofNat 125

/-- Split a character list at its first closing brace: returns the segment
before it and the remainder after it, or `none` when there is no closing
brace. -/
def takeToBrace : List Char → Option (List Char × List Char)
  | [] => none
  | c :: cs =>
    if c = closeBrace then some ([], cs)
    else
      match takeToBrace cs with
      | some (seg, rest) => some (c :: seg, rest)
      | none => none

/-- Embedding of `re.search` with the source's pattern (line 215): the
leftmost occurrence of an opening brace followed by one or more non-closing
characters and a closing brace; returns the matched substring.  A position
where the opening brace is immediately followed by a closing brace (empty
body) or never followed by a closing brace does not match, and the scan
resumes at the next character. -/
def searchBrace : List Char → Option (List Char)
  | [] => none
  | c :: cs =>
    if c = openBrace then
      match takeToBrace cs with
      | some ([], _) => searchBrace cs
      | some (seg, _) => some ((openBrace :: seg) ++ [closeBrace])
      | none => searchBrace cs
    else searchBrace cs

/-- The fixed neutral fallback score set (`5.0` for all four dimensions),
used when no client is configured, when the service call raises, and when
`json.loads` raises. -/
def fallbackNeutral : List (String × Rat) :=
  [("happiness", 5), ("excitement", 5), ("satisfaction", 5), ("concern", 5)]

/-- The fixed fallback score set used when no JSON object is found in the
response (`6.0, 7.0, 5.0, 3.0`). -/
def fallbackEstimate : List (String × Rat) :=
  [("happiness", 6), ("excitement", 7), ("satisfaction", 5), ("concern", 3)]

/-- The triple returned by `analyze_emotion_with_ai`:
`(emotions dict or None, error type or None, error message or None)`. -/
structure AnalyzeResult where
  emotions : Option (List (String × Rat))
  error_type : Option String
  error_message : Option String
deriving DecidableEq, Repr

/-- Embedding of `analyze_emotion_with_ai(text, client)` (lines 179-242),
threading the global rate limiter state explicitly (`rl`, `now`), with the
defaults `max_requests=15`, `time_window=60` of the global instance.
Returns the result triple and the rate limiter state after the call.
`client` is whether a service client is configured; `text` is the post
content (it only feeds the prompt, whose reply is the oracle `svc`).
`jsonLoads s = .error e` models `json.loads(s)` raising with message `e`,
which the source's `except Exception` handler turns into an `api_error`. -/
def analyze_emotion_with_ai (client : Bool) (text : String) (svc : ServiceBehavior)
    (jsonLoads : String → Except String (List (String × Rat)))
    (rl : List Nat) (now : Nat) : AnalyzeResult × List Nat :=
  if client = false then
    (⟨some fallbackNeutral, some "api_error", some "Google AI APIが利用できません"⟩, rl)
  else
    let r := can_request 15 60 rl now
    if r.1 = false then
      (⟨none, some "rate_limit", some "API レート制限中のため待機しています"⟩, r.2)
    else
      match svc with
      | .raises e =>
          (⟨some fallbackNeutral, some "api_error", some ("API呼び出しエラー: " ++ e)⟩, r.2)
      | .returns resultText =>
          match searchBrace resultText.data with
          | some matched =>
              match jsonLoads (String.mk matched) with
              | .ok emotions => (⟨some emotions, none, none⟩, r.2)
              | .error e =>
                  (⟨some fallbackNeutral, some "api_error",
                    some ("API呼び出しエラー: " ++ e)⟩, r.2)
          | none =>
              (⟨some fallbackEstimate, some "parse_error",
                some ("AIの応答解析に失敗しました。推定値を使用: " ++ resultText.take 50 ++ "...")⟩,
               r.2)

/-! ## The Persistent Store and the Background Worker

The `posts` table (init_database, lines 106-126) is modelled as an
association list keyed by the integer id; ids are assigned by appending with
`AUTOINCREMENT` semantics (`length + 1`).  One iteration of the worker loop
body of `process_emotion_queue` (lines 255-303) is `workerStep`; the
`except Exception` catch-all of the loop is modelled by the `keyError`
branch, where a `KeyError` on a parsed emotions dict lacking one of the four
keys aborts the iteration after the pop but before any write. -/

/-- A row of the `posts` table. -/
structure Post where
  content : String
  timestamp : Nat
  happiness : Rat
  excitement : Rat
  satisfaction : Rat
  concern : Rat
  processed : Bool
  error_type : Option String
  error_message : Option String
deriving DecidableEq, Repr

/-- A freshly inserted row: scores default to 0, `processed` to false,
error columns to NULL. -/
def newPost (content : String) (timestamp : Nat) : Post :=
  { content := content, timestamp := timestamp,
    happiness := 0, excitement := 0, satisfaction := 0, concern := 0,
    processed := false, error_type := none, error_message := none }

/-- Whole-system state shared by the submission path and the Worker: the
in-memory FIFO queue of post ids, the posts table, and the global rate
limiter's timestamp list. -/
structure SysState where
  queue : List Nat
  db : List (Nat × Post)
  rl : List Nat
deriving DecidableEq, Repr

/-- `SELECT content FROM posts WHERE id = ? AND processed = FALSE`
(line 263): the content of the row with this id, provided it is
unprocessed. -/
def fetchUnprocessed (db : List (Nat × Post)) (id : Nat) : Option String :=
  match db.lookup id with
  | some p => if p.processed = false then some p.content else none
  | none => none

/-- The worker's single `UPDATE posts SET ... WHERE id = ?` (lines 279-287):
writes the four scores, `processed = TRUE` and the error columns of the row
with the given id in one update. -/
def updateResult (db : List (Nat × Post)) (id : Nat) (h e sa c : Rat)
    (et em : Option String) : List (Nat × Post) :=
  db.map fun kv =>
    if kv.1 = id then
      (kv.1, { kv.2 with happiness := h, excitement := e, satisfaction := sa,
                         concern := c, processed := true,
                         error_type := et, error_message := em })
    else kv

/-- Which branch one worker iteration took (a ghost observation). -/
inductive StepOutcome where
  | idle
  | dropped (id : Nat)
  | requeued (id : Nat)
  | stored (id : Nat)
  | keyError (id : Nat)
deriving DecidableEq, Repr

/-- One iteration of the worker loop body (lines 255-303) when it finds the
queue non-empty: pop the front id; fetch the unprocessed row (drop silently
when absent); run the Scorer; on a rate-limit signal (`emotions is None`)
push the id back and continue; otherwise read the four keys out of the
emotions dict and store the result.  A dict lacking one of the keys raises
`KeyError` inside the loop body; the loop's catch-all swallows it, so the
iteration ends with the pop already done and nothing written. -/
def workerStep (client : Bool) (svc : ServiceBehavior)
    (jsonLoads : String → Except String (List (String × Rat))) (now : Nat)
    (s : SysState) : SysState × StepOutcome :=
  match s.queue with
  | [] => (s, .idle)
  | id :: rest =>
    match fetchUnprocessed s.db id with
    | none => ({ s with queue := rest }, .dropped id)
    | some content =>
      let ar := analyze_emotion_with_ai client content svc jsonLoads s.rl now
      match ar.1.emotions with
      | none => (⟨rest ++ [id], s.db, ar.2⟩, .requeued id)
      | some emotions =>
        match emotions.lookup "happiness", emotions.lookup "excitement",
              emotions.lookup "satisfaction", emotions.lookup "concern" with
        | some h, some e, some sa, some c =>
          (⟨rest, updateResult s.db id h e sa c ar.1.error_type ar.1.error_message, ar.2⟩,
           .stored id)
        | _, _, _, _ => (⟨rest, s.db, ar.2⟩, .keyError id)

/-- The submission path (lines 338-349): insert a row (id assigned by
AUTOINCREMENT) and push the new id onto the queue. -/
def insertPost (s : SysState) (content : String) (t : Nat) : SysState :=
  { queue := s.queue ++ [s.db.length + 1],
    db := s.db ++ [(s.db.length + 1, newPost content t)],
    rl := s.rl }

/-- All transitions of the pipeline: a submission, one worker iteration, an
operator re-queue (the debug "force process" button, lines 696-710), and an
informational `can_request` call from the presentation layer (lines 355,
531, 748), which mutates the limiter state. -/
inductive SysStep : SysState → SysState → Prop where
  | submit (content : String) (t : Nat) (s : SysState) :
      SysStep s (insertPost s content t)
  | worker (client : Bool) (svc : ServiceBehavior)
      (jl : String → Except String (List (String × Rat))) (now : Nat) (s : SysState) :
      SysStep s (workerStep client svc jl now s).1
  | requeueOp (id : Nat) (s : SysState) :
      SysStep s { s with queue := s.queue ++ [id] }
  | limiterPreview (now : Nat) (s : SysState) :
      SysStep s { s with rl := (can_request 15 60 s.rl now).2 }

/-- The initial state: empty table, empty queue, fresh limiter. -/
def initState : SysState := ⟨[], [], []⟩

/-- States reachable from the initial state by pipeline transitions. -/
def Reachable (s : SysState) : Prop := Relation.ReflTransGen SysStep initState s

/-- `lookup` over an appended association list looks left first. -/
lemma lookup_append (id : Nat) :
    ∀ (l₁ l₂ : List (Nat × Post)),
      (l₁ ++ l₂).lookup id =
        match l₁.lookup id with
        | some v => some v
        | none => l₂.lookup id := by
  intro l₁
  induction l₁ with
  | nil => intro l₂; simp [List.lookup]
  | cons kv l₁ ih =>
    intro l₂
    rcases kv with ⟨k, v⟩
    simp only [List.cons_append, List.lookup]
    cases hbeq : id == k <;> simp [hbeq, ih]

/-- Unfolding `updateResult` over a cons cell. -/
lemma updateResult_cons (k : Nat) (v : Post) (db : List (Nat × Post)) (id : Nat)
    (h e sa c : Rat) (et em : Option String) :
    updateResult ((k, v) :: db) id h e sa c et em =
      (if k = id then
        (k, { v with happiness := h, excitement := e, satisfaction := sa,
                     concern := c, processed := true,
                     error_type := et, error_message := em })
       else (k, v)) :: updateResult db id h e sa c et em := by
  by_cases hk : k = id <;> simp [updateResult, hk]

/-- Looking up the updated id after `updateResult` returns the transformed
row. -/
lemma lookup_updateResult_self (id : Nat) (h e sa c : Rat) (et em : Option String) :
    ∀ (db : List (Nat × Post)),
      (updateResult db id h e sa c et em).lookup id =
        (db.lookup id).map fun p =>
          { p with happiness := h, excitement := e, satisfaction := sa,
                   concern := c, processed := true,
                   error_type := et, error_message := em } := by
  intro db
  induction db with
  | nil => rfl
  | cons kv db ih =>
    rcases kv with ⟨k, v⟩
    rw [updateResult_cons]
    by_cases hk : k = id
    · subst hk
      rw [if_pos rfl]
      simp [List.lookup]
    · rw [if_neg hk]
      have hbeq : (id == k) = false := beq_eq_false_iff_ne.mpr (Ne.symm hk)
      simp [List.lookup, hbeq, ih]

/-- Looking up any other id after `updateResult` is unchanged. -/
lemma lookup_updateResult_ne (id id' : Nat) (hne : id' ≠ id)
    (h e sa c : Rat) (et em : Option String) :
    ∀ (db : List (Nat × Post)),
      (updateResult db id h e sa c et em).lookup id' = db.lookup id' := by
  intro db
  induction db with
  | nil => rfl
  | cons kv db ih =>
    rcases kv with ⟨k, v⟩
    rw [updateResult_cons]
    by_cases hk : k = id
    · subst hk
      rw [if_pos rfl]
      have hbeq : (id' == k) = false := beq_eq_false_iff_ne.mpr hne
      simp [List.lookup, hbeq, ih]
    · rw [if_neg hk]
      by_cases hk' : k = id'
      · subst hk'
        simp [List.lookup]
      · have hbeq : (id' == k) = false := beq_eq_false_iff_ne.mpr (Ne.symm hk')
        simp [List.lookup, hbeq, ih]

/-- A successful `fetchUnprocessed` exposes the underlying row: it exists,
is unprocessed, and carries the fetched content. -/
lemma fetchUnprocessed_some (db : List (Nat × Post)) (id : Nat) (content : String)
    (hf : fetchUnprocessed db id = some content) :
    ∃ p, db.lookup id = some p ∧ p.processed = false ∧ p.content = content := by
  unfold fetchUnprocessed at hf
  split at hf
  next p hp =>
    by_cases hproc : p.processed = false
    · rw [if_pos hproc] at hf
      exact ⟨p, hp, hproc, by simpa using hf⟩
    · rw [if_neg hproc] at hf
      simp at hf
  next hp => simp at hf

/-! ## Claims -/

/-- C1 (amended): `can_request()` returns true and records the current time
as a new admission if and only if fewer than `max_requests` of the recorded
timestamps `t` satisfy `(now - t) mod 86400 < time_window` — the source's
`timedelta.seconds` test, which discards whole days; when it returns false
it records no admission but does prune the timestamps failing that test.
Consequently (second conjunct), for monotonically nondecreasing call times
starting from an empty state, at most `max_requests` admissions occur
within any trailing `time_window`-second span `(T - w, T]`. -/
theorem C1_rate_limiter :
    (∀ m w reqs now,
      ((can_request m w reqs now).1 = true ↔
        (reqs.filter fun t => decide (tdSeconds now t < w)).length < m)
      ∧ ((can_request m w reqs now).1 = true →
          (can_request m w reqs now).2 =
            (reqs.filter fun t => decide (tdSeconds now t < w)) ++ [now])
      ∧ ((can_request m w reqs now).1 = false →
          (can_request m w reqs now).2 = reqs.filter fun t => decide (tdSeconds now t < w)))
    ∧ (∀ m w times T, times.Sorted (· ≤ ·) →
        ((runRL m w [] times).1.filter fun a => decide (a ≤ T ∧ T - a < w)).length ≤ m) := by
  constructor
  · intro m w reqs now
    by_cases h : (reqs.filter fun t => decide (tdSeconds now t < w)).length < m <;>
      simp [can_request, h]
  · intro m w times T hsort
    exact runRL_window_bound m w times hsort T

/-- C1 counterexample.  With fifteen admissions recorded at time 0 and a
call one day plus 30 seconds later, no recorded timestamp lies within the
trailing 60-second window, yet `can_request` rejects — the claim's "iff"
fails, because `timedelta.seconds` discards whole days.  Also, a rejected
call is not side-effect free: it prunes expired timestamps, observably
changing a subsequent `wait_time`. -/
theorem C1_counterexample :
    ((List.replicate 15 0).filter fun t => decide (t ≤ 86430 ∧ 86430 - t < 60)).length = 0
    ∧ (can_request 15 60 (List.replicate 15 0) 86430).1 = false
    ∧ (can_request 15 60 (0 :: List.replicate 15 65) 70).1 = false
    ∧ (can_request 15 60 (0 :: List.replicate 15 65) 70).2 ≠ 0 :: List.replicate 15 65
    ∧ wait_time 60 (can_request 15 60 (0 :: List.replicate 15 65) 70).2 70 ≠
        wait_time 60 (0 :: List.replicate 15 65) 70 := by decide

/-- Witness for C1 at concrete inputs: a stale timestamp frees the slot, and
a 16-call run at nondecreasing times keeps the window count within 15. -/
theorem C1_witness :
    (can_request 15 60 [0] 100).1 = true
    ∧ ((runRL 15 60 [] [0, 1]).1.filter fun a => decide (a ≤ 1 ∧ 1 - a < 60)).length ≤ 15 :=
  ⟨(C1_rate_limiter.1 15 60 [0] 100).1.mpr (by decide),
   C1_rate_limiter.2 15 60 [0, 1] 1 (by decide)⟩

/-- C2 (amended): `wait_time()` returns 0 when no timestamps are recorded,
and otherwise returns `max(0, time_window - (now - oldest).seconds)` — the
time until the oldest recorded timestamp ages out of the window — where
`oldest` is the minimum recorded timestamp, regardless of whether the
limiter currently has spare capacity. -/
theorem C2_wait_time :
    (∀ w now, wait_time w [] now = 0)
    ∧ (∀ w now t ts, ∃ o, o ∈ t :: ts ∧ (∀ x ∈ t :: ts, o ≤ x) ∧
        wait_time w (t :: ts) now = w - tdSeconds now o) := by
  refine ⟨fun w now => rfl, fun w now t ts => ?_⟩
  exact ⟨ts.foldl Nat.min t, foldl_min_mem ts t, foldl_min_le ts t, rfl⟩

/-- C2 counterexample.  A limiter with one fresh admission at time 100 has
spare capacity (1 < 15 admissions in the trailing window), yet `wait_time`
returns 60, not 0: the source never consults capacity. -/
theorem C2_counterexample :
    (([100] : List Nat).filter fun t => decide (t ≤ 100 ∧ 100 - t < 60)).length < 15
    ∧ wait_time 60 [100] 100 = 60 := by decide

/-- C7 (confirmed): when the popped identifier has no unprocessed Store row,
the Worker performs no Store update, does not re-queue the identifier, and
does not crash: the iteration only removes the id from the queue (the
source also logs, which has no modelled effect). -/
theorem C7_missing_row_drop (client : Bool) (svc : ServiceBehavior)
    (jl : String → Except String (List (String × Rat))) (now : Nat)
    (s : SysState) (id : Nat) (rest : List Nat)
    (hq : s.queue = id :: rest)
    (hfetch : fetchUnprocessed s.db id = none) :
    workerStep client svc jl now s = ({ s with queue := rest }, .dropped id)
    ∧ (workerStep client svc jl now s).1.db = s.db
    ∧ (workerStep client svc jl now s).1.rl = s.rl
    ∧ (id ∉ rest → id ∉ (workerStep client svc jl now s).1.queue) := by
  have hstep : workerStep client svc jl now s = ({ s with queue := rest }, .dropped id) := by
    simp [workerStep, hq, hfetch]
  exact ⟨hstep, by rw [hstep], by rw [hstep], fun hmem => by rw [hstep]; exact hmem⟩

/-- Witness for C7: id 7 popped against an empty table is dropped silently. -/
theorem C7_witness :
    workerStep false (.returns "") (fun _ => Except.error "") 0 ⟨[7], [], []⟩ =
      (⟨[], [], []⟩, .dropped 7) :=
  (C7_missing_row_drop false (.returns "") (fun _ => Except.error "") 0
    ⟨[7], [], []⟩ 7 [] rfl rfl).1

/-- C4 (confirmed): when the Rate Limiter rejects the admission for an
analysis attempt (client configured, row fetched), the Scorer returns
`(None, rate_limit, message)` without consulting the service or the JSON
parser (the result is the same for every service behaviour), and the Worker
pushes the same identifier back onto the queue tail without touching the
Store, so the row remains `processed = false`. -/
theorem C4_rate_limited_requeue (svc : ServiceBehavior)
    (jl : String → Except String (List (String × Rat))) (now : Nat)
    (s : SysState) (id : Nat) (rest : List Nat) (content : String)
    (hq : s.queue = id :: rest)
    (hfetch : fetchUnprocessed s.db id = some content)
    (hrej : (can_request 15 60 s.rl now).1 = false) :
    (analyze_emotion_with_ai true content svc jl s.rl now).1 =
      ⟨none, some "rate_limit", some "API レート制限中のため待機しています"⟩
    ∧ (∀ svcA jlA, analyze_emotion_with_ai true content svcA jlA s.rl now =
        analyze_emotion_with_ai true content svc jl s.rl now)
    ∧ (workerStep true svc jl now s).2 = .requeued id
    ∧ (workerStep true svc jl now s).1.queue = rest ++ [id]
    ∧ (workerStep true svc jl now s).1.db = s.db
    ∧ (∀ p, s.db.lookup id = some p → p.processed = false) := by
  have hana : ∀ (svcA : ServiceBehavior) (jlA : String → Except String (List (String × Rat))),
      analyze_emotion_with_ai true content svcA jlA s.rl now =
        (⟨none, some "rate_limit", some "API レート制限中のため待機しています"⟩,
         (can_request 15 60 s.rl now).2) := by
    intro svcA jlA
    simp [analyze_emotion_with_ai, hrej]
  refine ⟨by rw [hana], fun svcA jlA => by rw [hana, hana], ?_, ?_, ?_, ?_⟩
  · simp [workerStep, hq, hfetch, hana]
  · simp [workerStep, hq, hfetch, hana]
  · simp [workerStep, hq, hfetch, hana]
  · intro p hp
    obtain ⟨p', hp', hproc, _⟩ := fetchUnprocessed_some s.db id content hfetch
    rw [hp] at hp'
    cases hp'
    exact hproc

/-- Witness for C4: a full limiter (15 fresh admissions) causes the popped
id 1 to be re-queued and the row left untouched. -/
theorem C4_witness :
    (workerStep true (.returns "") (fun _ => Except.error "") 100
      ⟨[1], [(1, newPost "a" 0)], List.replicate 15 100⟩).2 = .requeued 1
    ∧ (workerStep true (.returns "") (fun _ => Except.error "") 100
      ⟨[1], [(1, newPost "a" 0)], List.replicate 15 100⟩).1.queue = [1]
    ∧ (workerStep true (.returns "") (fun _ => Except.error "") 100
      ⟨[1], [(1, newPost "a" 0)], List.replicate 15 100⟩).1.db = [(1, newPost "a" 0)] := by
  have h := C4_rate_limited_requeue (.returns "") (fun _ => Except.error "") 100
    ⟨[1], [(1, newPost "a" 0)], List.replicate 15 100⟩ 1 [] "a" rfl (by decide) (by decide)
  exact ⟨h.2.2.1, h.2.2.2.1, h.2.2.2.2.1⟩

/-- C9 (confirmed): with no configured service client, every analysis
returns the fixed neutral fallback — the emotions dict carrying 5.0 in all
four dimensions — tagged `api_error`, for every input text and every
service/parser behaviour. -/
theorem C9_no_client_fallback (text : String) (svc : ServiceBehavior)
    (jl : String → Except String (List (String × Rat))) (rl : List Nat) (now : Nat) :
    (analyze_emotion_with_ai false text svc jl rl now).1 =
      ⟨some fallbackNeutral, some "api_error", some "Google AI APIが利用できません"⟩
    ∧ fallbackNeutral.lookup "happiness" = some 5
    ∧ fallbackNeutral.lookup "excitement" = some 5
    ∧ fallbackNeutral.lookup "satisfaction" = some 5
    ∧ fallbackNeutral.lookup "concern" = some 5 := by
  refine ⟨rfl, ?_, ?_, ?_, ?_⟩ <;> rfl

/-- C10 (confirmed): with no client, `analyze_emotion_with_ai` returns its
terminal `api_error` fallback before the rate-limiter check: the limiter
state is returned unchanged (no admission slot consumed), the result is not
the rate-limit retry signal, and the Worker stores a terminal row instead of
re-queueing the identifier. -/
theorem C10_no_client_frame (text : String) (svc : ServiceBehavior)
    (jl : String → Except String (List (String × Rat))) (rl : List Nat) (now : Nat)
    (s : SysState) (id : Nat) (rest : List Nat) (content : String)
    (hq : s.queue = id :: rest)
    (hfetch : fetchUnprocessed s.db id = some content) :
    (analyze_emotion_with_ai false text svc jl rl now).2 = rl
    ∧ (analyze_emotion_with_ai false text svc jl rl now).1.emotions ≠ none
    ∧ (analyze_emotion_with_ai false text svc jl rl now).1.error_type = some "api_error"
    ∧ (workerStep false svc jl now s).2 = .stored id
    ∧ (workerStep false svc jl now s).1.rl = s.rl
    ∧ (workerStep false svc jl now s).1.queue = rest := by
  refine ⟨rfl, by simp [analyze_emotion_with_ai], rfl, ?_, ?_, ?_⟩ <;>
    simp [workerStep, hq, hfetch, analyze_emotion_with_ai, fallbackNeutral, List.lookup]

/-- Witness for C10: even with the limiter at full capacity, a no-client
analysis is stored terminally (never rate-limited) and the limiter state is
untouched. -/
theorem C10_witness :
    (workerStep false (.returns "") (fun _ => Except.error "") 100
      ⟨[1], [(1, newPost "a" 0)], List.replicate 15 100⟩).2 = .stored 1
    ∧ (workerStep false (.returns "") (fun _ => Except.error "") 100
      ⟨[1], [(1, newPost "a" 0)], List.replicate 15 100⟩).1.rl = List.replicate 15 100 := by
  have h := C10_no_client_frame "a" (.returns "") (fun _ => Except.error "") (List.replicate 15 100)
    100 ⟨[1], [(1, newPost "a" 0)], List.replicate 15 100⟩ 1 [] "a" rfl rfl
  exact ⟨h.2.2.2.1, h.2.2.2.2.1⟩

/-- C8 (confirmed): the Scorer is total — every call returns one of the
enumerated result tuples, so every failure path is expressed through the
returned triple (the source's try/except catches everything raised by the
service call and the JSON handling) — and when the service call raises any
error while admitted, it returns the fixed 5.0 fallback tagged `api_error`
with the underlying error text appended to the message. -/
theorem C8_never_raises (client : Bool) (text e : String) (svc : ServiceBehavior)
    (jl : String → Except String (List (String × Rat))) (rl : List Nat) (now : Nat)
    (hgrant : (can_request 15 60 rl now).1 = true) :
    ((analyze_emotion_with_ai true text (.raises e) jl rl now).1 =
      ⟨some fallbackNeutral, some "api_error", some ("API呼び出しエラー: " ++ e)⟩)
    ∧ ((∃ msg, (analyze_emotion_with_ai client text svc jl rl now).1 =
          ⟨some fallbackNeutral, some "api_error", some msg⟩)
      ∨ ((analyze_emotion_with_ai client text svc jl rl now).1 =
          ⟨none, some "rate_limit", some "API レート制限中のため待機しています"⟩)
      ∨ (∃ msg, (analyze_emotion_with_ai client text svc jl rl now).1 =
          ⟨some fallbackEstimate, some "parse_error", some msg⟩)
      ∨ (∃ em, (analyze_emotion_with_ai client text svc jl rl now).1 =
          ⟨some em, none, none⟩)) := by
  constructor
  · simp [analyze_emotion_with_ai, hgrant]
  · cases client with
    | false => exact Or.inl ⟨"Google AI APIが利用できません", rfl⟩
    | true =>
      by_cases hr : (can_request 15 60 rl now).1 = false
      · refine Or.inr (Or.inl ?_)
        simp [analyze_emotion_with_ai, hr]
      · simp only [Bool.not_eq_false] at hr
        cases svc with
        | raises err =>
          refine Or.inl ⟨"API呼び出しエラー: " ++ err, ?_⟩
          simp [analyze_emotion_with_ai, hr]
        | returns resultText =>
          cases hm : searchBrace resultText.data with
          | none =>
            refine Or.inr (Or.inr (Or.inl
              ⟨"AIの応答解析に失敗しました。推定値を使用: " ++ resultText.take 50 ++ "...", ?_⟩))
            simp [analyze_emotion_with_ai, hr, hm]
          | some matched =>
            cases hj : jl (String.mk matched) with
            | ok em =>
              refine Or.inr (Or.inr (Or.inr ⟨em, ?_⟩))
              simp [analyze_emotion_with_ai, hr, hm, hj]
            | error err =>
              refine Or.inl ⟨"API呼び出しエラー: " ++ err, ?_⟩
              simp [analyze_emotion_with_ai, hr, hm, hj]

/-- Witness for C8: a raising service call at an admitting limiter yields
the 5.0 `api_error` fallback with the error text in the message. -/
theorem C8_witness :
    (analyze_emotion_with_ai true "t" (.raises "boom") (fun _ => Except.error "") [] 0).1 =
      ⟨some fallbackNeutral, some "api_error", some ("API呼び出しエラー: " ++ "boom")⟩ :=
  (C8_never_raises true "t" "boom" (.raises "boom") (fun _ => Except.error "") [] 0 (by decide)).1

/-- C5 (amended): with a client and an admitting limiter, a Scorer response
in which no brace-delimited JSON object is found yields the fixed fallback
`(6.0, 7.0, 5.0, 3.0)` tagged `parse_error`, and the Worker stores exactly
those values with `error_type = parse_error`; but a response in which an
object is found and its parsing fails is caught by the generic exception
handler instead: the Scorer returns the neutral `(5.0, 5.0, 5.0, 5.0)`
tagged `api_error` and the row stores `api_error`. -/
theorem C5_parse_fallbacks (respText : String)
    (jl : String → Except String (List (String × Rat))) (now : Nat)
    (s : SysState) (id : Nat) (rest : List Nat) (content : String)
    (hq : s.queue = id :: rest)
    (hfetch : fetchUnprocessed s.db id = some content)
    (hgrant : (can_request 15 60 s.rl now).1 = true) :
    (searchBrace respText.data = none →
      (analyze_emotion_with_ai true content (.returns respText) jl s.rl now).1 =
        ⟨some fallbackEstimate, some "parse_error",
         some ("AIの応答解析に失敗しました。推定値を使用: " ++ respText.take 50 ++ "...")⟩
      ∧ (workerStep true (.returns respText) jl now s).2 = .stored id
      ∧ ∃ p, s.db.lookup id = some p ∧
          (workerStep true (.returns respText) jl now s).1.db.lookup id =
            some { p with happiness := 6, excitement := 7, satisfaction := 5, concern := 3,
                          processed := true, error_type := some "parse_error",
                          error_message :=
                            some ("AIの応答解析に失敗しました。推定値を使用: " ++
                              respText.take 50 ++ "...") })
    ∧ (∀ matched err, searchBrace respText.data = some matched →
        jl (String.mk matched) = .error err →
        (analyze_emotion_with_ai true content (.returns respText) jl s.rl now).1 =
          ⟨some fallbackNeutral, some "api_error", some ("API呼び出しエラー: " ++ err)⟩
        ∧ (workerStep true (.returns respText) jl now s).2 = .stored id
        ∧ ∃ p, s.db.lookup id = some p ∧
            (workerStep true (.returns respText) jl now s).1.db.lookup id =
              some { p with happiness := 5, excitement := 5, satisfaction := 5, concern := 5,
                            processed := true, error_type := some "api_error",
                            error_message := some ("API呼び出しエラー: " ++ err) }) := by
  obtain ⟨p, hp, hproc, hcont⟩ := fetchUnprocessed_some s.db id content hfetch
  constructor
  · intro hm
    have hana : (analyze_emotion_with_ai true content (.returns respText) jl s.rl now).1 =
        ⟨some fallbackEstimate, some "parse_error",
         some ("AIの応答解析に失敗しました。推定値を使用: " ++ respText.take 50 ++ "...")⟩ := by
      simp [analyze_emotion_with_ai, hgrant, hm]
    refine ⟨hana, ?_, p, hp, ?_⟩
    · simp [workerStep, hq, hfetch, analyze_emotion_with_ai, hgrant, hm,
        fallbackEstimate, List.lookup]
    · simp only [workerStep, hq, hfetch]
      simp only [analyze_emotion_with_ai, hgrant, hm]
      simp [fallbackEstimate, List.lookup, lookup_updateResult_self, hp]
  · intro matched err hm hj
    have hana : (analyze_emotion_with_ai true content (.returns respText) jl s.rl now).1 =
        ⟨some fallbackNeutral, some "api_error", some ("API呼び出しエラー: " ++ err)⟩ := by
      simp [analyze_emotion_with_ai, hgrant, hm, hj]
    refine ⟨hana, ?_, p, hp, ?_⟩
    · simp [workerStep, hq, hfetch, analyze_emotion_with_ai, hgrant, hm, hj,
        fallbackNeutral, List.lookup]
    · simp only [workerStep, hq, hfetch]
      simp only [analyze_emotion_with_ai, hgrant, hm, hj]
      simp [fallbackNeutral, List.lookup, lookup_updateResult_self, hp]

/-- C5 counterexample.  A response consisting of a brace-delimited object
that `json.loads` fails on (e.g. `'\x7bx: \x7d'`, modelled by the parser
oracle raising) produces `api_error` with the neutral 5.0 fallback — not
`parse_error` with `(6.0, 7.0, 5.0, 3.0)` as the claim states for parse
failures. -/
theorem C5_counterexample :
    (analyze_emotion_with_ai true "t"
        (.returns (String.mk [openBrace, 'x', closeBrace]))
        (fun _ => Except.error "Expecting value") [] 0).1.error_type = some "api_error"
    ∧ (analyze_emotion_with_ai true "t"
        (.returns (String.mk [openBrace, 'x', closeBrace]))
        (fun _ => Except.error "Expecting value") [] 0).1.emotions = some fallbackNeutral
    ∧ some "api_error" ≠ some "parse_error"
    ∧ fallbackNeutral ≠ fallbackEstimate := by
  refine ⟨rfl, rfl, by simp, by decide⟩

/-- Witness for C5: a braceless response is stored as `parse_error` with the
`(6, 7, 5, 3)` fallback. -/
theorem C5_witness :
    (workerStep true (.returns "abc") (fun _ => Except.error "") 0
      ⟨[1], [(1, newPost "a" 0)], []⟩).2 = .stored 1
    ∧ (workerStep true (.returns "abc") (fun _ => Except.error "") 0
      ⟨[1], [(1, newPost "a" 0)], []⟩).1.db.lookup 1 =
      some { newPost "a" 0 with
             happiness := 6, excitement := 7, satisfaction := 5, concern := 3,
             processed := true, error_type := some "parse_error",
             error_message :=
               some ("AIの応答解析に失敗しました。推定値を使用: " ++ String.take "abc" 50 ++ "...") } := by
  have h := C5_parse_fallbacks "abc" (fun _ => Except.error "") 0
    ⟨[1], [(1, newPost "a" 0)], []⟩ 1 [] "a" rfl rfl (by decide)
  obtain ⟨h1, h2, p, hp, hdb⟩ := h.1 (by decide)
  refine ⟨h2, ?_⟩
  have hpeq : p = newPost "a" 0 := by
    have h0 : some p = some (newPost "a" 0) := by rw [← hp]; rfl
    exact Option.some.inj h0
  rw [hdb, hpeq]

/-- C3 (amended): for every identifier popped by the Worker, the iteration
takes exactly one of four branches — silent drop when no unprocessed row
exists, re-queue when the Scorer signals rate-limit (emotions is None),
a terminal Store write when the returned emotions dict carries all four
keys, and a fourth branch the original claim omits: when the Scorer returns
a parsed dict lacking one of the four keys, the `KeyError` is swallowed by
the loop's catch-all and the identifier is dropped without re-queue or
Store write. -/
theorem C3_worker_outcomes (client : Bool) (svc : ServiceBehavior)
    (jl : String → Except String (List (String × Rat))) (now : Nat)
    (s : SysState) (id : Nat) (rest : List Nat)
    (hq : s.queue = id :: rest) :
    (fetchUnprocessed s.db id = none →
      workerStep client svc jl now s = ({ s with queue := rest }, .dropped id))
    ∧ (∀ content, fetchUnprocessed s.db id = some content →
        ((analyze_emotion_with_ai client content svc jl s.rl now).1.emotions = none →
          workerStep client svc jl now s =
            (⟨rest ++ [id], s.db, (analyze_emotion_with_ai client content svc jl s.rl now).2⟩,
             .requeued id))
        ∧ (∀ em h e sa c,
            (analyze_emotion_with_ai client content svc jl s.rl now).1.emotions = some em →
            em.lookup "happiness" = some h → em.lookup "excitement" = some e →
            em.lookup "satisfaction" = some sa → em.lookup "concern" = some c →
            workerStep client svc jl now s =
              (⟨rest, updateResult s.db id h e sa c
                  (analyze_emotion_with_ai client content svc jl s.rl now).1.error_type
                  (analyze_emotion_with_ai client content svc jl s.rl now).1.error_message,
                (analyze_emotion_with_ai client content svc jl s.rl now).2⟩, .stored id))
        ∧ (∀ em,
            (analyze_emotion_with_ai client content svc jl s.rl now).1.emotions = some em →
            (em.lookup "happiness" = none ∨ em.lookup "excitement" = none ∨
             em.lookup "satisfaction" = none ∨ em.lookup "concern" = none) →
            workerStep client svc jl now s =
              (⟨rest, s.db, (analyze_emotion_with_ai client content svc jl s.rl now).2⟩,
               .keyError id))) := by
  refine ⟨fun hfetch => by simp [workerStep, hq, hfetch], fun content hfetch => ?_⟩
  refine ⟨fun hem => by simp [workerStep, hq, hfetch, hem], ?_, ?_⟩
  · intro em h e sa c hem hh he hs hc
    simp [workerStep, hq, hfetch, hem, hh, he, hs, hc]
  · intro em hem hmiss
    rcases hh : em.lookup "happiness" with _ | h1 <;>
    rcases he : em.lookup "excitement" with _ | h2 <;>
    rcases hs : em.lookup "satisfaction" with _ | h3 <;>
    rcases hc : em.lookup "concern" with _ | h4 <;>
      first
      | (simp [workerStep, hq, hfetch, hem, hh, he, hs, hc]; done)
      | (exfalso; rcases hmiss with hm | hm | hm | hm <;> simp_all)

/-- C3 counterexample.  The Scorer can legitimately return a successfully
parsed object lacking the four emotion keys (response `'\x7bj\x7d'` parsed
to a dict with only key "joy"): the Worker then neither re-queues the found
identifier nor writes its row — the id is lost through the swallowed
`KeyError`, a loss path distinct from the row-not-found drop. -/
theorem C3_counterexample :
    fetchUnprocessed [(1, newPost "hi" 0)] 1 = some "hi"
    ∧ (workerStep true (.returns (String.mk [openBrace, 'j', closeBrace]))
        (fun _ => Except.ok [("joy", 3)]) 0 ⟨[1], [(1, newPost "hi" 0)], []⟩).1.db =
        [(1, newPost "hi" 0)]
    ∧ (workerStep true (.returns (String.mk [openBrace, 'j', closeBrace]))
        (fun _ => Except.ok [("joy", 3)]) 0 ⟨[1], [(1, newPost "hi" 0)], []⟩).1.queue = []
    ∧ (workerStep true (.returns (String.mk [openBrace, 'j', closeBrace]))
        (fun _ => Except.ok [("joy", 3)]) 0 ⟨[1], [(1, newPost "hi" 0)], []⟩).2 = .keyError 1 := by
  refine ⟨rfl, ?_, ?_, ?_⟩ <;> rfl

/-- Witness for C3 at concrete inputs: an empty-table pop is dropped via the
first branch. -/
theorem C3_witness :
    workerStep true (.returns "") (fun _ => Except.error "") 0 ⟨[3], [], []⟩ =
      (⟨[], [], []⟩, .dropped 3) :=
  (C3_worker_outcomes true (.returns "") (fun _ => Except.error "") 0
    ⟨[3], [], []⟩ 3 [] rfl).1 rfl

/-- Every worker iteration either leaves the table unchanged, or performs
exactly one `updateResult` on an id whose row it first fetched unprocessed,
reporting the `stored` outcome. -/
lemma workerStep_db_cases (client : Bool) (svc : ServiceBehavior)
    (jl : String → Except String (List (String × Rat))) (now : Nat) (s : SysState) :
    (workerStep client svc jl now s).1.db = s.db
    ∨ (∃ id₀ p₀ h e sa c ety emsg,
        s.db.lookup id₀ = some p₀ ∧ p₀.processed = false
        ∧ (workerStep client svc jl now s).1.db = updateResult s.db id₀ h e sa c ety emsg
        ∧ (workerStep client svc jl now s).2 = .stored id₀) := by
  cases hq : s.queue with
  | nil => exact Or.inl (by simp [workerStep, hq])
  | cons id rest =>
    cases hfetch : fetchUnprocessed s.db id with
    | none => exact Or.inl (by simp [workerStep, hq, hfetch])
    | some content =>
      obtain ⟨p, hp, hproc, _⟩ := fetchUnprocessed_some s.db id content hfetch
      cases hem : (analyze_emotion_with_ai client content svc jl s.rl now).1.emotions with
      | none => exact Or.inl (by simp [workerStep, hq, hfetch, hem])
      | some em =>
        rcases hh : em.lookup "happiness" with _ | h1 <;>
        rcases he : em.lookup "excitement" with _ | h2 <;>
        rcases hs : em.lookup "satisfaction" with _ | h3 <;>
        rcases hc : em.lookup "concern" with _ | h4 <;>
          first
          | (left
             simp [workerStep, hq, hfetch, hem, hh, he, hs, hc]
             done)
          | (right
             refine ⟨id, p, h1, h2, h3, h4,
               (analyze_emotion_with_ai client content svc jl s.rl now).1.error_type,
               (analyze_emotion_with_ai client content svc jl s.rl now).1.error_message,
               hp, hproc, ?_, ?_⟩ <;>
               simp [workerStep, hq, hfetch, hem, hh, he, hs, hc])

/-- C6 (confirmed): a freshly inserted row starts `processed = false` with
all four scores 0; rows with `processed = true` are never changed again by
any pipeline transition (so the false→true transition happens at most
once); a row can only change in a step that flips its `processed` flag from
false to true, and that step is a worker iteration reporting a terminal
`stored` outcome (scores are mutated exactly in that one update); and in
every reachable state, unprocessed rows still carry the default 0 scores. -/
theorem C6_processed_transitions :
    (∀ (content : String) (t : Nat),
      (newPost content t).processed = false
      ∧ (newPost content t).happiness = 0 ∧ (newPost content t).excitement = 0
      ∧ (newPost content t).satisfaction = 0 ∧ (newPost content t).concern = 0
      ∧ ∀ s, (insertPost s content t).db = s.db ++ [(s.db.length + 1, newPost content t)])
    ∧ (∀ s s', SysStep s s' → ∀ id p, s.db.lookup id = some p → p.processed = true →
        s'.db.lookup id = some p)
    ∧ (∀ s s', SysStep s s' → ∀ id p p', s.db.lookup id = some p →
        s'.db.lookup id = some p' → p' ≠ p →
        p.processed = false ∧ p'.processed = true
        ∧ ∃ client svc jl now, s' = (workerStep client svc jl now s).1
            ∧ (workerStep client svc jl now s).2 = StepOutcome.stored id)
    ∧ (∀ s, Reachable s → ∀ id p, s.db.lookup id = some p → p.processed = false →
        p.happiness = 0 ∧ p.excitement = 0 ∧ p.satisfaction = 0 ∧ p.concern = 0) := by
  refine ⟨fun content t => ⟨rfl, rfl, rfl, rfl, rfl, fun s => rfl⟩, ?_, ?_, ?_⟩
  · -- processed rows are frozen
    intro s s' hstep id p hp hproc
    cases hstep with
    | submit content t =>
      show (insertPost s content t).db.lookup id = some p
      simp only [insertPost]
      rw [lookup_append, hp]
    | worker client svc jl now =>
      rcases workerStep_db_cases client svc jl now s with hsame |
        ⟨id₀, p₀, h, e, sa, c, ety, emsg, hp₀, hproc₀, hdb, _⟩
      · rw [hsame]; exact hp
      · rw [hdb]
        by_cases hid : id = id₀
        · subst hid
          rw [hp] at hp₀
          cases hp₀
          rw [hproc] at hproc₀
          exact absurd hproc₀ (by simp)
        · rw [lookup_updateResult_ne id₀ id hid]; exact hp
    | requeueOp id₀ => exact hp
    | limiterPreview now => exact hp
  · -- a row changes only by the worker's false→true stored update
    intro s s' hstep id p p' hp hp' hne
    cases hstep with
    | submit content t =>
      exfalso
      apply hne
      have hsame : (insertPost s content t).db.lookup id = some p := by
        simp only [insertPost]
        rw [lookup_append, hp]
      rw [hsame] at hp'
      exact (Option.some.inj hp').symm
    | worker client svc jl now =>
      rcases workerStep_db_cases client svc jl now s with hsame |
        ⟨id₀, p₀, h, e, sa, c, ety, emsg, hp₀, hproc₀, hdb, hout⟩
      · exfalso
        apply hne
        rw [hsame, hp] at hp'
        exact (Option.some.inj hp').symm
      · by_cases hid : id = id₀
        · subst hid
          rw [hp] at hp₀
          cases hp₀
          rw [hdb, lookup_updateResult_self, hp] at hp'
          simp only [Option.map_some'] at hp'
          obtain rfl := (Option.some.inj hp').symm
          exact ⟨hproc₀, rfl, client, svc, jl, now, rfl, hout⟩
        · exfalso
          apply hne
          rw [hdb, lookup_updateResult_ne id₀ id hid, hp] at hp'
          exact (Option.some.inj hp').symm
    | requeueOp id₀ =>
      exfalso
      apply hne
      have hsame : ({ s with queue := s.queue ++ [id₀] }).db.lookup id = some p := hp
      rw [hsame] at hp'
      exact (Option.some.inj hp').symm
    | limiterPreview now =>
      exfalso
      apply hne
      have hsame : ({ s with rl := (can_request 15 60 s.rl now).2 }).db.lookup id = some p := hp
      rw [hsame] at hp'
      exact (Option.some.inj hp').symm
  · -- reachable invariant: unprocessed rows keep the default scores
    intro s hs
    induction hs with
    | refl =>
      intro id p hp _
      simp [initState, List.lookup] at hp
    | @tail b c _ hbc ih =>
      intro id p hp hproc
      cases hbc with
      | submit content t =>
        simp only [insertPost] at hp
        rw [lookup_append] at hp
        cases hb : b.db.lookup id with
        | some q =>
          rw [hb] at hp
          have hqp : some q = some p := hp
          obtain rfl := Option.some.inj hqp
          exact ih id q hb hproc
        | none =>
          rw [hb] at hp
          have hp2 : List.lookup id [(b.db.length + 1, newPost content t)] = some p := hp
          cases hbeq : id == b.db.length + 1 with
          | true =>
            simp only [List.lookup, hbeq] at hp2
            obtain rfl := Option.some.inj hp2
            exact ⟨rfl, rfl, rfl, rfl⟩
          | false =>
            simp only [List.lookup, hbeq] at hp2
            exact absurd hp2 (by simp)
      | worker client svc jl now =>
        rcases workerStep_db_cases client svc jl now b with hsame |
          ⟨id₀, p₀, h, e, sa, c, ety, emsg, hp₀, hproc₀, hdb, _⟩
        · rw [hsame] at hp
          exact ih id p hp hproc
        · rw [hdb] at hp
          by_cases hid : id = id₀
          · subst hid
            rw [lookup_updateResult_self, hp₀] at hp
            simp only [Option.map_some'] at hp
            obtain rfl := Option.some.inj hp
            simp at hproc
          · rw [lookup_updateResult_ne id₀ id hid] at hp
            exact ih id p hp hproc
      | requeueOp id₀ => exact ih id p hp hproc
      | limiterPreview now => exact ih id p hp hproc

/-- Witness for C6: a processed row survives an operator re-queue step
unchanged, and the row inserted by a first submission is reachable with the
default zero scores. -/
theorem C6_witness :
    ((⟨[] ++ [5], [(1, { newPost "x" 0 with processed := true })], []⟩ : SysState).db.lookup 1 =
      some { newPost "x" 0 with processed := true })
    ∧ ((newPost "hi" 0).happiness = 0 ∧ (newPost "hi" 0).excitement = 0
       ∧ (newPost "hi" 0).satisfaction = 0 ∧ (newPost "hi" 0).concern = 0) := by
  constructor
  · exact C6_processed_transitions.2.1
      ⟨[], [(1, { newPost "x" 0 with processed := true })], []⟩
      ⟨[] ++ [5], [(1, { newPost "x" 0 with processed := true })], []⟩
      (SysStep.requeueOp 5 ⟨[], [(1, { newPost "x" 0 with processed := true })], []⟩)
      1 { newPost "x" 0 with processed := true } rfl rfl
  · exact C6_processed_transitions.2.2.2 (insertPost initState "hi" 0)
      (Relation.ReflTransGen.single (SysStep.submit "hi" 0 initState))
      1 (newPost "hi" 0) rfl rfl

end EmotionSNS
